import Mathlib

/-!
Verification of the Cornerstone Care payroll auditor.

The development shallowly embeds the payroll reconciliation pipeline of
src/payroll.py (aggregation of EVV rows, the per-client allocation of
calculate_payroll_with_assignments, the per-staff summary roll-up and the
bi-weekly combination of render_payroll_summary) together with the lookup
maps of src/database.py (get_client_pos_map, get_assignment_map).  Hours
are modelled as rationals; the 2-decimal rounding of the source (Python
round, round-half-to-even) is modelled exactly on rationals.
-/

namespace Payroll

attribute [local semireducible] Rat.add Rat.mul Rat.inv Rat.sub Rat.ofScientific

/-! ## Rounding: Python round(x, 2) on rationals (round half to even) -/

/-- Round a rational to the nearest integer, ties to even (Python round). -/
def roundHalfEven (x : ℚ) : ℤ :=
  if x - ⌊x⌋ < 1/2 then ⌊x⌋
  else if 1/2 < x - ⌊x⌋ then ⌊x⌋ + 1
  else if ⌊x⌋ % 2 = 0 then ⌊x⌋ else ⌊x⌋ + 1

/-- Round a rational to 2 decimal places, Python round(x, 2). -/
def round2 (x : ℚ) : ℚ := (roundHalfEven (100 * x) : ℚ) / 100

/-! ## Input data model

One `Entry` is one data row of the EVV Services Rendered Report after
read_evv_report: client and staff are the raw report strings, `dur` is
the value of pd.to_numeric(row, errors=coerce) on the Service Duration
column (`none` models NaN, i.e. a missing or non-numeric cell), and
`units` likewise for the Units column. -/

structure Entry where
  client : String
  staff : String
  dur : Option ℚ
  units : Option ℚ
deriving DecidableEq

/-- Sum of the numeric Service Duration values of the rows grouped under
the exact (Client Name, Staff Name) pair; NaN durations are skipped by
the pandas sum, i.e. contribute 0. -/
def sumDur (es : List Entry) (c s : String) : ℚ :=
  ((es.filter fun e => e.client == c && e.staff == s).map fun e => e.dur.getD 0).sum

/-- The Hours Worked column of the grouped table: the per-pair sum of
durations rounded to 2 decimals (grouped round(2) in the source). -/
def hoursWorked (es : List Entry) (c s : String) : ℚ := round2 (sumDur es c s)

/-- The (Client Name, Staff Name) keys of the grouped table. -/
def pairsOf (es : List Entry) : List (String × String) :=
  (es.map fun e => (e.client, e.staff)).dedup

/-- The distinct client names of the grouped table. -/
def clientsOf (es : List Entry) : List String := (es.map fun e => e.client).dedup

/-- The distinct staff names appearing for one client. -/
def staffOf (es : List Entry) (c : String) : List String :=
  ((es.filter fun e => e.client == c).map fun e => e.staff).dedup

/-- The rows of the grouped table for one client, as (staff, Hours Worked). -/
def staffHoursOf (es : List Entry) (c : String) : List (String × ℚ) :=
  (staffOf es c).map fun s => (s, hoursWorked es c s)

/-- client_data Hours Worked sum for one client. -/
def totalWorkedClient (es : List Entry) (c : String) : ℚ :=
  ((staffOf es c).map fun s => hoursWorked es c s).sum

/-! ## Reference data: the database lookup maps -/

/-- get_client_pos_map: client name to weekly POS hours. -/
abbrev PosMap := List (String × ℚ)

/-- get_assignment_map: (staff name, client name) to assigned hours. -/
abbrev AsgMap := List ((String × String) × ℚ)

/-- client_pos_map.get(client_name, 0): absent clients fall back to 0. -/
def posLookup (m : PosMap) (c : String) : ℚ := (m.lookup c).getD 0

/-- assignment_map.get((staff_name, client_name)): None when absent. -/
def asgLookup (m : AsgMap) (s c : String) : Option ℚ := m.lookup (s, c)

/-! ## Allocation results -/

/-- One result row produced by calculate_payroll_with_assignments. -/
structure AllocationResult where
  client : String
  staff : String
  posLimit : ℚ
  assigned : Option ℚ
  hoursWorked : ℚ
  payable : ℚ
  reduced : ℚ
  status : String
deriving DecidableEq

/-- Row of the pos_limit == 0 branch: pay as worked, status No POS Set. -/
def noPosRow (c s : String) (pos hw : ℚ) : AllocationResult :=
  { client := c, staff := s, posLimit := pos, assigned := none,
    hoursWorked := hw, payable := hw, reduced := 0, status := "No POS Set" }

/-- Row of the total_worked <= pos_limit branch: pay as worked, status OK. -/
def okRow (asg : AsgMap) (c s : String) (pos hw : ℚ) : AllocationResult :=
  { client := c, staff := s, posLimit := pos, assigned := asgLookup asg s c,
    hoursWorked := hw, payable := hw, reduced := 0, status := "OK" }

/-- Row of the over-POS branch: cap at the assignment when one exists and
was exceeded, otherwise pay as worked; with no assignment, prorate the POS
limit by the share of total worked hours. -/
def overRow (asg : AsgMap) (c s : String) (pos total hw : ℚ) : AllocationResult :=
  match asgLookup asg s c with
  | none =>
      { client := c, staff := s, posLimit := pos, assigned := none, hoursWorked := hw,
        payable := round2 (pos * (hw / total)),
        reduced := round2 (hw - round2 (pos * (hw / total))),
        status := "No Assignment - Prorated" }
  | some a =>
      if a < hw then
        { client := c, staff := s, posLimit := pos, assigned := some a, hoursWorked := hw,
          payable := a, reduced := round2 (hw - a), status := "Capped at Assignment" }
      else
        { client := c, staff := s, posLimit := pos, assigned := some a, hoursWorked := hw,
          payable := hw, reduced := round2 (hw - hw), status := "OK" }

/-- The issue string appended when a client has no POS value. -/
def noPosMsg (c : String) : String :=
  "Client \x27" ++ c ++ "\x27 not found in database or has no POS set"

/-- The issue string appended for a missing assignment in the over branch. -/
def noAsgMsg (s c : String) : String :=
  "No assignment found for \x27" ++ s ++ "\x27 on client \x27" ++ c ++ "\x27"

/-- The per-client body of calculate_payroll_with_assignments: the result
rows and the issues appended while processing one client, given the grouped
(staff, Hours Worked) rows of that client. -/
def allocClient (asg : AsgMap) (c : String) (pos : ℚ) (sh : List (String × ℚ)) :
    List AllocationResult × List String :=
  if pos = 0 then
    (sh.map fun pr => noPosRow c pr.1 pos pr.2, [noPosMsg c])
  else if (sh.map Prod.snd).sum ≤ pos then
    (sh.map fun pr => okRow asg c pr.1 pos pr.2, [])
  else
    (sh.map fun pr => overRow asg c pr.1 pos ((sh.map Prod.snd).sum) pr.2,
     (sh.filter fun pr => (asgLookup asg pr.1 c).isNone).map fun pr => noAsgMsg pr.1 c)

/-- calculate_payroll_with_assignments: the per-(client, staff) detail rows
and the collected issues (the staff summary roll-up is staffSummary). -/
def calculate_payroll_with_assignments (p : PosMap) (a : AsgMap) (es : List Entry) :
    List AllocationResult × List String :=
  ((((clientsOf es).map fun c => allocClient a c (posLookup p c) (staffHoursOf es c)).map
      Prod.fst).flatten,
   (((clientsOf es).map fun c => allocClient a c (posLookup p c) (staffHoursOf es c)).map
      Prod.snd).flatten)

/-- The unique allocation row of a (client, staff) pair, when one exists. -/
def resultFor (p : PosMap) (a : AsgMap) (es : List Entry) (c s : String) :
    Option AllocationResult :=
  (calculate_payroll_with_assignments p a es).1.find? fun r => r.client == c && r.staff == s

/-- Payable Hours of the row of a (client, staff) pair. -/
def payableFor (p : PosMap) (a : AsgMap) (es : List Entry) (c s : String) : Option ℚ :=
  (resultFor p a es c s).map AllocationResult.payable

/-- Hours Reduced of the row of a (client, staff) pair. -/
def reducedFor (p : PosMap) (a : AsgMap) (es : List Entry) (c s : String) : Option ℚ :=
  (resultFor p a es c s).map AllocationResult.reduced

/-- Status of the row of a (client, staff) pair. -/
def statusFor (p : PosMap) (a : AsgMap) (es : List Entry) (c s : String) : Option String :=
  (resultFor p a es c s).map AllocationResult.status

/-- Sum of Payable Hours over the result rows of one client. -/
def clientPayableTotal (p : PosMap) (a : AsgMap) (es : List Entry) (c : String) : ℚ :=
  (((calculate_payroll_with_assignments p a es).1.filter fun r => r.client == c).map
    fun r => r.payable).sum

/-! ## Staff summary roll-up and bi-weekly combination -/

/-- One row of the staff_summary table. -/
structure StaffSummaryRow where
  staff : String
  worked : ℚ
  payable : ℚ
  reduced : ℚ
deriving DecidableEq

/-- The staff summary: groupby Staff Name, sum the three hour columns,
round(2); presentation sort order is not modelled. -/
def staffSummary (rs : List AllocationResult) : List StaffSummaryRow :=
  ((rs.map fun r => r.staff).dedup).map fun s =>
    { staff := s,
      worked := round2 (((rs.filter fun r => r.staff == s).map fun r => r.hoursWorked).sum),
      payable := round2 (((rs.filter fun r => r.staff == s).map fun r => r.payable).sum),
      reduced := round2 (((rs.filter fun r => r.staff == s).map fun r => r.reduced).sum) }

/-- Lookup of a staff summary row by Staff Name. -/
def slookup (w : List StaffSummaryRow) (s : String) : Option StaffSummaryRow :=
  w.find? fun r => r.staff == s

/-- The combined row of a staff member present in week 1: the outer merge
pairs it with its week-2 row when there is one (fillna 0 otherwise) and the
three hour fields are summed and rounded to 2 decimals. -/
def combinedRow1 (w2 : List StaffSummaryRow) (r : StaffSummaryRow) : StaffSummaryRow :=
  match slookup w2 r.staff with
  | some r2 =>
      { staff := r.staff, worked := round2 (r.worked + r2.worked),
        payable := round2 (r.payable + r2.payable), reduced := round2 (r.reduced + r2.reduced) }
  | none =>
      { staff := r.staff, worked := round2 (r.worked + 0),
        payable := round2 (r.payable + 0), reduced := round2 (r.reduced + 0) }

/-- The combined row of a staff member present only in week 2: week 1
contributes the fillna zero. -/
def combinedRow2 (r : StaffSummaryRow) : StaffSummaryRow :=
  { staff := r.staff, worked := round2 (0 + r.worked),
    payable := round2 (0 + r.payable), reduced := round2 (0 + r.reduced) }

/-- The both-weeks branch of render_payroll_summary: pandas outer merge on
Staff Name with fillna(0), then field-wise sums rounded to 2 decimals.
Row order: week-1 keys first, then the week-2-only keys. -/
def combineBoth (w1 w2 : List StaffSummaryRow) : List StaffSummaryRow :=
  w1.map (combinedRow1 w2)
  ++ (w2.filter fun r => (slookup w1 r.staff).isNone).map combinedRow2

/-- render_payroll_summary combination of the two weekly summaries: both
present merges them, one present passes it through, neither yields nothing
(the source returns before combining in that case). -/
def combineSummaries :
    Option (List StaffSummaryRow) → Option (List StaffSummaryRow) → List StaffSummaryRow
  | some w1, some w2 => combineBoth w1 w2
  | some w1, none => w1
  | none, some w2 => w2
  | none, none => []

/-! ## Database model (src/database.py) -/

/-- One row of the staff table (is_active is an SQLite INTEGER). -/
structure StaffRec where
  id : Nat
  name : String
  isActive : Int
deriving DecidableEq

/-- One row of the clients table. -/
structure ClientRec where
  id : Nat
  name : String
  posHours : ℚ
  isActive : Int
deriving DecidableEq

/-- One row of the assignments table. -/
structure AssignmentRec where
  staffId : Nat
  clientId : Nat
  assignedHours : ℚ
deriving DecidableEq

/-- The database state read by the payroll calculation. -/
structure DB where
  staff : List StaffRec
  clients : List ClientRec
  assignments : List AssignmentRec

/-- get_all_clients(active_only=True): WHERE c.is_active = 1. -/
def get_all_clients (db : DB) : List ClientRec :=
  db.clients.filter fun c => c.isActive == 1

/-- get_client_pos_map: name to pos_hours over the active clients. -/
def get_client_pos_map (db : DB) : PosMap :=
  (get_all_clients db).map fun c => (c.name, c.posHours)

/-- get_assignment_map built on get_all_assignments: the JOIN keeps an
assignment only when its staff and its client both exist and are active. -/
def get_assignment_map (db : DB) : AsgMap :=
  db.assignments.filterMap fun a =>
    match db.staff.find? fun s => s.id == a.staffId && s.isActive == 1,
          db.clients.find? fun c => c.id == a.clientId && c.isActive == 1 with
    | some s, some c => some ((s.name, c.name), a.assignedHours)
    | _, _ => none


/-- The uniform per-row form of allocClient: the row for one staff member,
given the client branch data (POS limit and total worked). -/
def allocRow (asg : AsgMap) (c s : String) (pos total hw : ℚ) : AllocationResult :=
  if pos = 0 then noPosRow c s pos hw
  else if total ≤ pos then okRow asg c s pos hw
  else overRow asg c s pos total hw

/-! ## Rounding lemmas -/

lemma roundHalfEven_intCast (k : ℤ) : roundHalfEven (k : ℚ) = k := by
  unfold roundHalfEven
  rw [Int.floor_intCast]
  simp

lemma roundHalfEven_ge_floor (x : ℚ) : ⌊x⌋ ≤ roundHalfEven x := by
  unfold roundHalfEven
  split_ifs <;> omega

lemma roundHalfEven_le_floor_add_one (x : ℚ) : roundHalfEven x ≤ ⌊x⌋ + 1 := by
  unfold roundHalfEven
  split_ifs <;> omega

lemma roundHalfEven_mono {x y : ℚ} (h : x ≤ y) : roundHalfEven x ≤ roundHalfEven y := by
  rcases lt_or_eq_of_le (Int.floor_mono h) with hf | hf
  · calc roundHalfEven x ≤ ⌊x⌋ + 1 := roundHalfEven_le_floor_add_one x
      _ ≤ ⌊y⌋ := by omega
      _ ≤ roundHalfEven y := roundHalfEven_ge_floor y
  · unfold roundHalfEven
    rw [hf]
    have hxy : x - ⌊y⌋ ≤ y - ⌊y⌋ := by
      have := hf ▸ (sub_le_sub_right h (⌊x⌋ : ℚ))
      linarith [sub_le_sub_right h ((⌊y⌋ : ℚ))]
    split_ifs <;> first | omega | linarith

lemma roundHalfEven_le (x : ℚ) : (roundHalfEven x : ℚ) ≤ x + 1/2 := by
  unfold roundHalfEven
  have hfl : (⌊x⌋ : ℚ) ≤ x := Int.floor_le x
  split_ifs with h1 h2 h3
  · linarith
  · push_cast
    linarith
  · linarith
  · push_cast
    have : x - ⌊x⌋ = 1/2 := le_antisymm (not_lt.mp h2) (not_lt.mp h1)
    linarith

lemma round2_mono {x y : ℚ} (h : x ≤ y) : round2 x ≤ round2 y := by
  unfold round2
  have := roundHalfEven_mono (by linarith : 100 * x ≤ 100 * y)
  have h2 : (roundHalfEven (100 * x) : ℚ) ≤ (roundHalfEven (100 * y) : ℚ) := by
    exact_mod_cast this
  linarith

lemma round2_le (x : ℚ) : round2 x ≤ x + 1/200 := by
  unfold round2
  have := roundHalfEven_le (100 * x)
  linarith

lemma round2_div_hundred (k : ℤ) : round2 ((k : ℚ) / 100) = (k : ℚ) / 100 := by
  unfold round2
  have h : (100 : ℚ) * ((k : ℚ) / 100) = (k : ℚ) := by ring
  rw [h, roundHalfEven_intCast]

lemma round2_zero : round2 0 = 0 := by
  have := round2_div_hundred 0
  simpa using this

lemma round2_nonneg {x : ℚ} (h : 0 ≤ x) : 0 ≤ round2 x := by
  have := round2_mono h
  rwa [round2_zero] at this

/-- The image of round2 is the set of integer multiples of 1/100. -/
lemma round2_eq_div_hundred (x : ℚ) : ∃ k : ℤ, round2 x = (k : ℚ) / 100 :=
  ⟨roundHalfEven (100 * x), rfl⟩

lemma round2_idem (x : ℚ) : round2 (round2 x) = round2 x := by
  obtain ⟨k, hk⟩ := round2_eq_div_hundred x
  rw [hk, round2_div_hundred]

/-- Rounding a value below a 2-decimal bound stays below that bound. -/
lemma round2_le_of_le_div_hundred {x : ℚ} {k : ℤ} (h : x ≤ (k : ℚ) / 100) :
    round2 x ≤ (k : ℚ) / 100 := by
  calc round2 x ≤ round2 ((k : ℚ) / 100) := round2_mono h
    _ = (k : ℚ) / 100 := round2_div_hundred k

/-! ## Structural lemmas about the allocation pipeline -/

lemma allocRow_client (asg : AsgMap) (c s : String) (pos total hw : ℚ) :
    (allocRow asg c s pos total hw).client = c := by
  unfold allocRow noPosRow okRow overRow
  split_ifs
  · rfl
  · rfl
  · cases asgLookup asg s c with
    | none => rfl
    | some a =>
        dsimp only
        split_ifs <;> rfl

lemma allocRow_staff (asg : AsgMap) (c s : String) (pos total hw : ℚ) :
    (allocRow asg c s pos total hw).staff = s := by
  unfold allocRow noPosRow okRow overRow
  split_ifs
  · rfl
  · rfl
  · cases asgLookup asg s c with
    | none => rfl
    | some a =>
        dsimp only
        split_ifs <;> rfl

lemma allocRow_hoursWorked (asg : AsgMap) (c s : String) (pos total hw : ℚ) :
    (allocRow asg c s pos total hw).hoursWorked = hw := by
  unfold allocRow noPosRow okRow overRow
  split_ifs
  · rfl
  · rfl
  · cases asgLookup asg s c with
    | none => rfl
    | some a =>
        dsimp only
        split_ifs <;> rfl

lemma allocRow_of_noPos (asg : AsgMap) (c s : String) {pos : ℚ} (total hw : ℚ)
    (h : pos = 0) : allocRow asg c s pos total hw = noPosRow c s pos hw := by
  unfold allocRow
  simp [h]

lemma allocRow_of_under (asg : AsgMap) (c s : String) {pos total : ℚ} (hw : ℚ)
    (h0 : pos ≠ 0) (hle : total ≤ pos) :
    allocRow asg c s pos total hw = okRow asg c s pos hw := by
  unfold allocRow
  simp [h0, hle]

lemma allocRow_of_over (asg : AsgMap) (c s : String) {pos total : ℚ} (hw : ℚ)
    (h0 : pos ≠ 0) (hgt : pos < total) :
    allocRow asg c s pos total hw = overRow asg c s pos total hw := by
  unfold allocRow
  simp [h0, not_le.mpr hgt]

lemma allocClient_fst (asg : AsgMap) (c : String) (pos : ℚ) (sh : List (String × ℚ)) :
    (allocClient asg c pos sh).1 =
      sh.map fun pr => allocRow asg c pr.1 pos ((sh.map Prod.snd).sum) pr.2 := by
  by_cases h0 : pos = 0
  · simp [allocClient, allocRow, h0]
  · by_cases hle : (sh.map Prod.snd).sum ≤ pos
    · simp [allocClient, allocRow, h0, hle]
    · simp [allocClient, allocRow, h0, hle]

lemma staffHoursOf_snd_sum (es : List Entry) (c : String) :
    ((staffHoursOf es c).map Prod.snd).sum = totalWorkedClient es c := by
  unfold staffHoursOf totalWorkedClient
  rw [List.map_map]
  rfl

lemma calc_fst (p : PosMap) (a : AsgMap) (es : List Entry) :
    (calculate_payroll_with_assignments p a es).1 =
      ((clientsOf es).map fun c => (staffOf es c).map fun s =>
        allocRow a c s (posLookup p c) (totalWorkedClient es c) (hoursWorked es c s)).flatten := by
  unfold calculate_payroll_with_assignments
  simp only [List.map_map]
  refine congrArg List.flatten (List.map_congr_left fun c _ => ?_)
  show (allocClient a c (posLookup p c) (staffHoursOf es c)).1 = _
  rw [allocClient_fst, staffHoursOf_snd_sum]
  unfold staffHoursOf
  rw [List.map_map]
  rfl

lemma calc_snd (p : PosMap) (a : AsgMap) (es : List Entry) :
    (calculate_payroll_with_assignments p a es).2 =
      ((clientsOf es).map fun c =>
        (allocClient a c (posLookup p c) (staffHoursOf es c)).2).flatten := by
  unfold calculate_payroll_with_assignments
  simp only [List.map_map]
  rfl

lemma find?_beq_self {l : List String} {s : String} (h : s ∈ l) :
    l.find? (fun x => x == s) = some s := by
  induction l with
  | nil => cases h
  | cons a t ih =>
    by_cases ha : (a == s) = true
    · rw [List.find?_cons_of_pos (p := fun x => x == s) t ha]
      rw [beq_iff_eq] at ha
      rw [ha]
    · rw [List.find?_cons_of_neg (p := fun x => x == s) t ha]
      rcases List.mem_cons.mp h with h1 | h2
      · exact absurd (beq_iff_eq.mpr h1.symm) ha
      · exact ih h2

lemma find?_filter_of_imp {α} (l : List α) (p q : α → Bool)
    (h : ∀ x, p x = true → q x = true) : (l.filter q).find? p = l.find? p := by
  induction l with
  | nil => rfl
  | cons a t ih =>
    by_cases hq : q a = true
    · rw [List.filter_cons_of_pos hq]
      by_cases hp : p a = true
      · rw [List.find?_cons_of_pos _ hp, List.find?_cons_of_pos _ hp]
      · rw [List.find?_cons_of_neg _ hp, List.find?_cons_of_neg _ hp]
        exact ih
    · have hp : ¬ p a = true := fun hpa => hq (h a hpa)
      rw [List.filter_cons_of_neg hq, List.find?_cons_of_neg _ hp]
      exact ih

lemma find_alloc_flatten (a : AsgMap) (posF totF : String → ℚ) (hwF : String → String → ℚ)
    (staffF : String → List String) (cs : List String) (c s : String)
    (hc : c ∈ cs) (hs : s ∈ staffF c) :
    ((cs.map fun c' => (staffF c').map fun s' =>
        allocRow a c' s' (posF c') (totF c') (hwF c' s')).flatten.find?
      fun r => r.client == c && r.staff == s) =
      some (allocRow a c s (posF c) (totF c) (hwF c s)) := by
  induction cs with
  | nil => cases hc
  | cons c' cs' ih =>
    rw [List.map_cons, List.flatten_cons, List.find?_append]
    by_cases hcc : c' = c
    · subst hcc
      rw [List.find?_map]
      have hcomp : ((fun r : AllocationResult => r.client == c' && r.staff == s) ∘
          fun s' => allocRow a c' s' (posF c') (totF c') (hwF c' s')) =
          fun s' => s' == s := by
        funext s'
        simp [Function.comp, allocRow_client, allocRow_staff]
      rw [hcomp, find?_beq_self hs]
      rfl
    · have hnone : ((staffF c').map fun s' =>
          allocRow a c' s' (posF c') (totF c') (hwF c' s')).find?
            (fun r => r.client == c && r.staff == s) = none := by
        rw [List.find?_eq_none]
        intro r hr hpr
        obtain ⟨s', _, rfl⟩ := List.mem_map.mp hr
        rw [Bool.and_eq_true, beq_iff_eq, beq_iff_eq, allocRow_client, allocRow_staff] at hpr
        exact hcc hpr.1
      rw [hnone, Option.none_or]
      have hc' : c ∈ cs' := by
        rcases List.mem_cons.mp hc with h1 | h2
        · exact absurd h1.symm hcc
        · exact h2
      exact ih hc'

lemma find_alloc_flatten_none (a : AsgMap) (posF totF : String → ℚ)
    (hwF : String → String → ℚ) (staffF : String → List String) (cs : List String)
    (c s : String) (h : c ∉ cs ∨ s ∉ staffF c) :
    ((cs.map fun c' => (staffF c').map fun s' =>
        allocRow a c' s' (posF c') (totF c') (hwF c' s')).flatten.find?
      fun r => r.client == c && r.staff == s) = none := by
  rw [List.find?_eq_none]
  intro r hr hpr
  obtain ⟨blk, hblk, hrblk⟩ := List.mem_flatten.mp hr
  obtain ⟨c', hc', rfl⟩ := List.mem_map.mp hblk
  obtain ⟨s', hs', rfl⟩ := List.mem_map.mp hrblk
  rw [Bool.and_eq_true, beq_iff_eq, beq_iff_eq, allocRow_client, allocRow_staff] at hpr
  obtain ⟨rfl, rfl⟩ := hpr
  rcases h with h | h
  · exact h hc'
  · exact h hs'

/-- Characterization of the result row of a present (client, staff) pair. -/
lemma resultFor_eq (p : PosMap) (a : AsgMap) (es : List Entry) (c s : String)
    (hc : c ∈ clientsOf es) (hs : s ∈ staffOf es c) :
    resultFor p a es c s =
      some (allocRow a c s (posLookup p c) (totalWorkedClient es c) (hoursWorked es c s)) := by
  unfold resultFor
  rw [calc_fst]
  exact find_alloc_flatten a (posLookup p) (totalWorkedClient es) (hoursWorked es)
    (staffOf es) (clientsOf es) c s hc hs

/-- A pair with no grouped row has no result row. -/
lemma resultFor_none (p : PosMap) (a : AsgMap) (es : List Entry) (c s : String)
    (h : c ∉ clientsOf es ∨ s ∉ staffOf es c) : resultFor p a es c s = none := by
  unfold resultFor
  rw [calc_fst]
  exact find_alloc_flatten_none a (posLookup p) (totalWorkedClient es) (hoursWorked es)
    (staffOf es) (clientsOf es) c s h

lemma filter_alloc_flatten_nil (a : AsgMap) (posF totF : String → ℚ)
    (hwF : String → String → ℚ) (staffF : String → List String) (cs : List String)
    (c : String) (hc : c ∉ cs) :
    ((cs.map fun c' => (staffF c').map fun s' =>
        allocRow a c' s' (posF c') (totF c') (hwF c' s')).flatten.filter
      fun r => r.client == c) = [] := by
  rw [List.filter_eq_nil_iff]
  intro r hr hpr
  obtain ⟨blk, hblk, hrblk⟩ := List.mem_flatten.mp hr
  obtain ⟨c', hc', rfl⟩ := List.mem_map.mp hblk
  obtain ⟨s', _, rfl⟩ := List.mem_map.mp hrblk
  rw [beq_iff_eq, allocRow_client] at hpr
  exact hc (hpr ▸ hc')

lemma filter_alloc_flatten (a : AsgMap) (posF totF : String → ℚ)
    (hwF : String → String → ℚ) (staffF : String → List String) (cs : List String)
    (c : String) (hnd : cs.Nodup) (hc : c ∈ cs) :
    ((cs.map fun c' => (staffF c').map fun s' =>
        allocRow a c' s' (posF c') (totF c') (hwF c' s')).flatten.filter
      fun r => r.client == c) =
      (staffF c).map fun s' => allocRow a c s' (posF c) (totF c) (hwF c s') := by
  induction cs with
  | nil => cases hc
  | cons c' cs' ih =>
    rw [List.map_cons, List.flatten_cons, List.filter_append]
    have hnd' := (List.nodup_cons.mp hnd).2
    have hcnot := (List.nodup_cons.mp hnd).1
    by_cases hcc : c' = c
    · subst hcc
      have h1 : (((staffF c').map fun s' =>
          allocRow a c' s' (posF c') (totF c') (hwF c' s')).filter
            fun r => r.client == c') = (staffF c').map fun s' =>
          allocRow a c' s' (posF c') (totF c') (hwF c' s') := by
        rw [List.filter_eq_self]
        intro r hr
        obtain ⟨s', _, rfl⟩ := List.mem_map.mp hr
        rw [beq_iff_eq, allocRow_client]
      rw [h1, filter_alloc_flatten_nil a posF totF hwF staffF cs' c' hcnot,
        List.append_nil]
    · have h1 : (((staffF c').map fun s' =>
          allocRow a c' s' (posF c') (totF c') (hwF c' s')).filter
            fun r => r.client == c) = [] := by
        rw [List.filter_eq_nil_iff]
        intro r hr hpr
        obtain ⟨s', _, rfl⟩ := List.mem_map.mp hr
        rw [beq_iff_eq, allocRow_client] at hpr
        exact hcc hpr
      have hc' : c ∈ cs' := by
        rcases List.mem_cons.mp hc with h2 | h2
        · exact absurd h2.symm hcc
        · exact h2
      rw [h1, List.nil_append]
      exact ih hnd' hc'

/-- The result rows of one client are exactly its per-staff rows. -/
lemma calc_filter_client (p : PosMap) (a : AsgMap) (es : List Entry) (c : String)
    (hc : c ∈ clientsOf es) :
    ((calculate_payroll_with_assignments p a es).1.filter fun r => r.client == c) =
      (staffOf es c).map fun s =>
        allocRow a c s (posLookup p c) (totalWorkedClient es c) (hoursWorked es c s) := by
  rw [calc_fst]
  exact filter_alloc_flatten a (posLookup p) (totalWorkedClient es) (hoursWorked es)
    (staffOf es) (clientsOf es) c (List.nodup_dedup _) hc

/-! ## Issue strings -/

lemma noPosMsg_inj {c₁ c₂ : String} (h : noPosMsg c₁ = noPosMsg c₂) : c₁ = c₂ := by
  unfold noPosMsg at h
  have hd := congrArg String.data h
  simp only [String.data_append] at hd
  have h1 : ("Client \x27" : String).data ++ c₁.data =
      ("Client \x27" : String).data ++ c₂.data :=
    List.append_cancel_right hd
  exact String.ext (List.append_cancel_left h1)

lemma noAsgMsg_ne_noPosMsg (s c c' : String) : noAsgMsg s c ≠ noPosMsg c' := by
  intro h
  have hd := congrArg String.data h
  unfold noAsgMsg noPosMsg at hd
  simp only [String.data_append] at hd
  simp only [List.cons_append] at hd
  injection hd with hh _
  exact absurd hh (by decide)

lemma count_noPosMsg_allocClient (asg : AsgMap) (c' : String) (pos : ℚ)
    (sh : List (String × ℚ)) (c : String) :
    ((allocClient asg c' pos sh).2).count (noPosMsg c) =
      if c' = c ∧ pos = 0 then 1 else 0 := by
  unfold allocClient
  by_cases h0 : pos = 0
  · rw [if_pos h0]
    show List.count (noPosMsg c) [noPosMsg c'] = _
    rw [List.count_singleton]
    by_cases hcc : c' = c
    · subst hcc
      simp [h0]
    · have hne : ¬(noPosMsg c' == noPosMsg c) = true := by
        rw [beq_iff_eq]
        intro he
        exact hcc (noPosMsg_inj he)
      simp [hne, hcc]
  · rw [if_neg h0]
    have hz : ¬(c' = c ∧ pos = 0) := fun hx => h0 hx.2
    rw [if_neg hz]
    by_cases hle : (sh.map Prod.snd).sum ≤ pos
    · rw [if_pos hle]
      rfl
    · rw [if_neg hle]
      show List.count (noPosMsg c)
        ((sh.filter fun pr => (asgLookup asg pr.1 c').isNone).map fun pr =>
          noAsgMsg pr.1 c') = 0
      rw [List.count_eq_zero]
      intro hmem
      obtain ⟨pr, _, heq⟩ := List.mem_map.mp hmem
      exact noAsgMsg_ne_noPosMsg pr.1 c' c heq

lemma count_noPosMsg_blocks_zero (p : PosMap) (a : AsgMap) (es : List Entry)
    (cs : List String) (c : String) (hc : c ∉ cs) :
    ((cs.map fun c' =>
        (allocClient a c' (posLookup p c') (staffHoursOf es c')).2).flatten).count
      (noPosMsg c) = 0 := by
  induction cs with
  | nil => rfl
  | cons c' cs' ih =>
    rw [List.map_cons, List.flatten_cons, List.count_append]
    have hcc : c' ≠ c := fun he => hc (he ▸ List.mem_cons_self c' cs')
    rw [count_noPosMsg_allocClient, if_neg (fun hx => hcc hx.1)]
    have hc' : c ∉ cs' := fun hm => hc (List.mem_cons_of_mem c' hm)
    rw [ih hc']

lemma count_noPosMsg_blocks (p : PosMap) (a : AsgMap) (es : List Entry)
    (cs : List String) (c : String) (hnd : cs.Nodup) (hc : c ∈ cs)
    (h0 : posLookup p c = 0) :
    ((cs.map fun c' =>
        (allocClient a c' (posLookup p c') (staffHoursOf es c')).2).flatten).count
      (noPosMsg c) = 1 := by
  induction cs with
  | nil => cases hc
  | cons c' cs' ih =>
    rw [List.map_cons, List.flatten_cons, List.count_append]
    have hnd' := (List.nodup_cons.mp hnd).2
    have hcnot := (List.nodup_cons.mp hnd).1
    by_cases hcc : c' = c
    · subst hcc
      rw [count_noPosMsg_allocClient, if_pos ⟨rfl, h0⟩,
        count_noPosMsg_blocks_zero p a es cs' c' hcnot]
    · have hc' : c ∈ cs' := by
        rcases List.mem_cons.mp hc with h2 | h2
        · exact absurd h2.symm hcc
        · exact h2
      rw [count_noPosMsg_allocClient, if_neg (fun hx => hcc hx.1)]
      rw [ih hnd' hc']

/-- A client with sentinel POS 0 contributes exactly one issue line. -/
lemma count_noPosMsg_issues (p : PosMap) (a : AsgMap) (es : List Entry) (c : String)
    (hc : c ∈ clientsOf es) (h0 : posLookup p c = 0) :
    ((calculate_payroll_with_assignments p a es).2).count (noPosMsg c) = 1 := by
  rw [calc_snd]
  exact count_noPosMsg_blocks p a es (clientsOf es) c (List.nodup_dedup _) hc h0

/-- The missing-assignment issue of the over branch is recorded. -/
lemma noAsgMsg_mem (p : PosMap) (a : AsgMap) (es : List Entry) (c s : String)
    (hc : c ∈ clientsOf es) (hs : s ∈ staffOf es c) (h0 : posLookup p c ≠ 0)
    (hover : posLookup p c < totalWorkedClient es c) (hasg : asgLookup a s c = none) :
    noAsgMsg s c ∈ (calculate_payroll_with_assignments p a es).2 := by
  rw [calc_snd]
  rw [List.mem_flatten]
  refine ⟨(allocClient a c (posLookup p c) (staffHoursOf es c)).2,
    List.mem_map_of_mem _ hc, ?_⟩
  unfold allocClient
  rw [if_neg h0, staffHoursOf_snd_sum, if_neg (not_le.mpr hover)]
  have hmem : (s, hoursWorked es c s) ∈
      (staffHoursOf es c).filter fun pr => (asgLookup a pr.1 c).isNone := by
    rw [List.mem_filter]
    exact ⟨List.mem_map_of_mem _ hs, by simp [hasg]⟩
  exact List.mem_map_of_mem _ hmem

/-! ## Sum helpers -/

lemma sum_map_add_const {α} (L : List α) (f : α → ℚ) (k : ℚ) :
    (L.map fun x => f x + k).sum = (L.map f).sum + L.length * k := by
  induction L with
  | nil => simp
  | cons a t ih =>
    simp only [List.map_cons, List.sum_cons, List.length_cons, ih]
    push_cast
    ring

lemma sum_map_filter_le {α} (L : List α) (q : α → Bool) (f : α → ℚ)
    (hf : ∀ x ∈ L, 0 ≤ f x) : ((L.filter q).map f).sum ≤ (L.map f).sum := by
  induction L with
  | nil => simp
  | cons a t ih =>
    have h0 := hf a (List.mem_cons_self a t)
    have iht := ih fun x hx => hf x (List.mem_cons_of_mem a hx)
    by_cases hq : q a = true
    · rw [List.filter_cons_of_pos hq]
      simp only [List.map_cons, List.sum_cons]
      linarith
    · rw [List.filter_cons_of_neg hq]
      simp only [List.map_cons, List.sum_cons]
      linarith

/-! ## Permutation invariance of the grouped aggregation -/

lemma sumDur_perm {es es' : List Entry} (h : es.Perm es') (c s : String) :
    sumDur es c s = sumDur es' c s :=
  List.Perm.sum_eq (List.Perm.map _ (List.Perm.filter _ h))

lemma hoursWorked_perm {es es' : List Entry} (h : es.Perm es') (c s : String) :
    hoursWorked es c s = hoursWorked es' c s :=
  congrArg round2 (sumDur_perm h c s)

lemma clientsOf_perm {es es' : List Entry} (h : es.Perm es') :
    (clientsOf es).Perm (clientsOf es') :=
  List.Perm.dedup (List.Perm.map _ h)

lemma staffOf_perm {es es' : List Entry} (h : es.Perm es') (c : String) :
    (staffOf es c).Perm (staffOf es' c) :=
  List.Perm.dedup (List.Perm.map _ (List.Perm.filter _ h))

lemma totalWorkedClient_perm {es es' : List Entry} (h : es.Perm es') (c : String) :
    totalWorkedClient es c = totalWorkedClient es' c := by
  unfold totalWorkedClient
  have hmap : (staffOf es' c).map (fun s => hoursWorked es' c s) =
      (staffOf es' c).map fun s => hoursWorked es c s :=
    List.map_congr_left fun s _ => (hoursWorked_perm h c s).symm
  rw [hmap]
  exact List.Perm.sum_eq (List.Perm.map _ (staffOf_perm h c))

/-- The result row of every (client, staff) pair is invariant under
permutations of the raw EVV rows. -/
lemma resultFor_perm (p : PosMap) (a : AsgMap) {es es' : List Entry}
    (h : es.Perm es') (c s : String) :
    resultFor p a es c s = resultFor p a es' c s := by
  by_cases hc : c ∈ clientsOf es
  · by_cases hs : s ∈ staffOf es c
    · have hc' : c ∈ clientsOf es' := (clientsOf_perm h).mem_iff.mp hc
      have hs' : s ∈ staffOf es' c := (staffOf_perm h c).mem_iff.mp hs
      rw [resultFor_eq p a es c s hc hs, resultFor_eq p a es' c s hc' hs',
        totalWorkedClient_perm h c, hoursWorked_perm h c s]
    · rw [resultFor_none p a es c s (Or.inr hs), resultFor_none p a es' c s
        (Or.inr fun hs' => hs ((staffOf_perm h c).mem_iff.mpr hs'))]
  · rw [resultFor_none p a es c s (Or.inl hc), resultFor_none p a es' c s
      (Or.inl fun hc' => hc ((clientsOf_perm h).mem_iff.mpr hc'))]

/-! ## Lookup helpers -/

lemma lookup_mem {α β} [BEq α] [LawfulBEq α] {l : List (α × β)} {k : α} {v : β}
    (h : l.lookup k = some v) : (k, v) ∈ l := by
  induction l with
  | nil => cases h
  | cons pr t ih =>
    cases pr with
    | mk k' b =>
      rw [List.lookup_cons] at h
      by_cases hk : (k == k') = true
      · simp only [hk] at h
        injection h with hv
        rw [beq_iff_eq] at hk
        subst hk
        subst hv
        exact List.mem_cons_self _ _
      · rw [Bool.not_eq_true] at hk
        simp only [hk] at h
        exact List.mem_cons_of_mem _ (ih h)

lemma lookup_eq_none_of_keys {α β} [BEq α] [LawfulBEq α] (l : List (α × β)) (k : α)
    (h : ∀ pr ∈ l, pr.1 ≠ k) : l.lookup k = none := by
  induction l with
  | nil => rfl
  | cons pr t ih =>
    cases pr with
    | mk k' b =>
      rw [List.lookup_cons]
      have hk : ¬(k == k') = true := by
        rw [beq_iff_eq]
        exact fun he => h (k', b) (List.mem_cons_self _ _) he.symm
      rw [Bool.not_eq_true] at hk
      simp only [hk]
      exact ih fun pr hpr => h pr (List.mem_cons_of_mem _ hpr)

lemma posLookup_nonneg {p : PosMap} (hp : ∀ x ∈ p, 0 ≤ x.2) (c : String) :
    0 ≤ posLookup p c := by
  unfold posLookup
  cases hl : p.lookup c with
  | none => simp
  | some v =>
    simp only [Option.getD_some]
    exact hp (c, v) (lookup_mem hl)

lemma asgLookup_nonneg {a : AsgMap} (ha : ∀ x ∈ a, 0 ≤ x.2) {s c : String} {v : ℚ}
    (h : asgLookup a s c = some v) : 0 ≤ v :=
  ha ((s, c), v) (lookup_mem h)

/-! ## Database map lemmas -/

lemma mem_get_client_pos_map {db : DB} {pr : String × ℚ}
    (hpr : pr ∈ get_client_pos_map db) :
    ∃ c' ∈ db.clients, c'.isActive = 1 ∧ pr.1 = c'.name := by
  unfold get_client_pos_map get_all_clients at hpr
  obtain ⟨c', hc', rfl⟩ := List.mem_map.mp hpr
  refine ⟨c', List.mem_of_mem_filter hc', ?_, rfl⟩
  have := List.of_mem_filter hc'
  rwa [beq_iff_eq] at this

lemma mem_get_assignment_map {db : DB} {pr : (String × String) × ℚ}
    (hpr : pr ∈ get_assignment_map db) :
    ∃ s' ∈ db.staff, ∃ c' ∈ db.clients, s'.isActive = 1 ∧ c'.isActive = 1 ∧
      pr.1 = (s'.name, c'.name) := by
  unfold get_assignment_map at hpr
  obtain ⟨arec, _, hsome⟩ := List.mem_filterMap.mp hpr
  split at hsome
  next s' c' hfs hfc =>
    have hs' := List.find?_some hfs
    have hc' := List.find?_some hfc
    rw [Bool.and_eq_true, beq_iff_eq, beq_iff_eq] at hs' hc'
    refine ⟨s', List.mem_of_find?_eq_some hfs, c', List.mem_of_find?_eq_some hfc,
      hs'.2, hc'.2, ?_⟩
    injection hsome with h
    rw [← h]
  next => cases hsome

/-- A client stored as inactive does not occur in the POS map at all, so
its lookup falls back to the sentinel 0. -/
lemma posLookup_inactive (db : DB)
    (hnames : (db.clients.map fun c => c.name).Nodup)
    {cl : ClientRec} (hcl : cl ∈ db.clients) (hact : cl.isActive ≠ 1) :
    posLookup (get_client_pos_map db) cl.name = 0 := by
  unfold posLookup
  rw [lookup_eq_none_of_keys]
  · rfl
  · intro pr hpr hname
    obtain ⟨c', hc'mem, hc'act, hkey⟩ := mem_get_client_pos_map hpr
    have : c' = cl :=
      List.inj_on_of_nodup_map hnames hc'mem hcl (by rw [← hkey, hname])
    exact hact (this ▸ hc'act)

/-- An assignment whose staff member is inactive is invisible to the
assignment map. -/
lemma asgLookup_inactive_staff (db : DB)
    (hsnames : (db.staff.map fun s => s.name).Nodup)
    {st : StaffRec} (hst : st ∈ db.staff) (hact : st.isActive ≠ 1) (cname : String) :
    asgLookup (get_assignment_map db) st.name cname = none := by
  unfold asgLookup
  apply lookup_eq_none_of_keys
  intro pr hpr hkey
  obtain ⟨s', hs'mem, c', _, hs'act, _, hkey'⟩ := mem_get_assignment_map hpr
  have hn : s'.name = st.name := by
    have := congrArg Prod.fst hkey
    rw [hkey'] at this
    exact this
  have : s' = st := List.inj_on_of_nodup_map hsnames hs'mem hst hn
  exact hact (this ▸ hs'act)

/-- An assignment whose client is inactive is invisible to the
assignment map. -/
lemma asgLookup_inactive_client (db : DB)
    (hcnames : (db.clients.map fun c => c.name).Nodup)
    {cl : ClientRec} (hcl : cl ∈ db.clients) (hact : cl.isActive ≠ 1) (sname : String) :
    asgLookup (get_assignment_map db) sname cl.name = none := by
  unfold asgLookup
  apply lookup_eq_none_of_keys
  intro pr hpr hkey
  obtain ⟨s', _, c', hc'mem, _, hc'act, hkey'⟩ := mem_get_assignment_map hpr
  have hn : c'.name = cl.name := by
    have := congrArg Prod.snd hkey
    rw [hkey'] at this
    exact this
  have : c' = cl := List.inj_on_of_nodup_map hcnames hc'mem hcl hn
  exact hact (this ▸ hc'act)

/-! ## Combination lemmas -/

lemma combinedRow1_staff (w2 : List StaffSummaryRow) (r : StaffSummaryRow) :
    (combinedRow1 w2 r).staff = r.staff := by
  unfold combinedRow1
  cases slookup w2 r.staff <;> rfl

lemma slookup_append (u v : List StaffSummaryRow) (s : String) :
    slookup (u ++ v) s = (slookup u s).or (slookup v s) :=
  List.find?_append

lemma slookup_map_preserving (w : List StaffSummaryRow)
    (f : StaffSummaryRow → StaffSummaryRow) (hf : ∀ r, (f r).staff = r.staff)
    (s : String) :
    slookup (w.map f) s = (slookup w s).map f := by
  unfold slookup
  rw [List.find?_map]
  have hp : ((fun r : StaffSummaryRow => r.staff == s) ∘ f) =
      fun r : StaffSummaryRow => r.staff == s := by
    funext r
    simp [Function.comp, hf]
  rw [hp]

lemma slookup_filter (w : List StaffSummaryRow) (q : StaffSummaryRow → Bool)
    (s : String) (h : ∀ r : StaffSummaryRow, r.staff = s → q r = true) :
    slookup (w.filter q) s = slookup w s := by
  unfold slookup
  exact find?_filter_of_imp w _ q fun r hr => h r (by rwa [beq_iff_eq] at hr)

/-- Lookup in the outer merge: present in both weeks sums the fields,
present in one week pairs it with the fillna zero, absent in both is
absent from the merge. -/
lemma slookup_combineBoth (w1 w2 : List StaffSummaryRow) (s : String) :
    slookup (combineBoth w1 w2) s =
      match slookup w1 s, slookup w2 s with
      | some r1, some r2 =>
          some ⟨s, round2 (r1.worked + r2.worked), round2 (r1.payable + r2.payable),
            round2 (r1.reduced + r2.reduced)⟩
      | some r1, none =>
          some ⟨s, round2 (r1.worked + 0), round2 (r1.payable + 0),
            round2 (r1.reduced + 0)⟩
      | none, some r2 =>
          some ⟨s, round2 (0 + r2.worked), round2 (0 + r2.payable),
            round2 (0 + r2.reduced)⟩
      | none, none => none := by
  unfold combineBoth
  rw [slookup_append, slookup_map_preserving w1 _ (combinedRow1_staff w2) s]
  cases h1 : slookup w1 s with
  | some r1 =>
    have hr1 : r1.staff = s := by
      have := List.find?_some h1
      rwa [beq_iff_eq] at this
    simp only [Option.map_some']
    change some (combinedRow1 w2 r1) = _
    unfold combinedRow1
    rw [hr1]
    cases h2 : slookup w2 s with
    | some r2 => rfl
    | none => rfl
  | none =>
    simp only [Option.map_none']
    rw [Option.none_or]
    rw [slookup_map_preserving _ combinedRow2 (fun r => rfl) s]
    rw [slookup_filter w2 _ s fun r hr => by rw [hr, h1]; rfl]
    cases h2 : slookup w2 s with
    | some r2 =>
      have hr2 : r2.staff = s := by
        have := List.find?_some h2
        rwa [beq_iff_eq] at this
      simp only [Option.map_some']
      unfold combinedRow2
      rw [hr2]
    | none => rfl

lemma overRow_assigned (asg : AsgMap) (c s : String) (pos total hw : ℚ) :
    (overRow asg c s pos total hw).assigned = asgLookup asg s c := by
  unfold overRow
  cases h : asgLookup asg s c with
  | none => rfl
  | some a =>
    dsimp only
    split_ifs <;> rfl

lemma overRow_payable_none {asg : AsgMap} {c s : String} (pos total hw : ℚ)
    (h : asgLookup asg s c = none) :
    (overRow asg c s pos total hw).payable = round2 (pos * (hw / total)) := by
  unfold overRow
  rw [h]

lemma filter_and {α} (l : List α) (p q : α → Bool) :
    (l.filter fun x => p x && q x) = (l.filter p).filter q := by
  rw [List.filter_filter]
  congr 1
  funext x
  rw [Bool.and_comm]

lemma hoursWorked_nonneg {es : List Entry} (hd : ∀ e ∈ es, 0 ≤ e.dur.getD 0)
    (c s : String) : 0 ≤ hoursWorked es c s := by
  unfold hoursWorked
  apply round2_nonneg
  unfold sumDur
  apply List.sum_nonneg
  intro x hx
  obtain ⟨e, he, rfl⟩ := List.mem_map.mp hx
  exact hd e (List.mem_of_mem_filter he)

/-! ## Claim theorems -/

/-- C3: for a client with a non-zero POS limit whose total worked hours are
at most the limit (the comparison is a non-strict one, so exact equality
also lands here), every staff member is paid as worked with zero reduction
and status OK, whatever assignment they may or may not have. -/
theorem under_or_at_ceiling_pays_as_worked (p : PosMap) (a : AsgMap) (es : List Entry)
    (c s : String) (hc : c ∈ clientsOf es) (hs : s ∈ staffOf es c)
    (hpos : posLookup p c ≠ 0) (hle : totalWorkedClient es c ≤ posLookup p c) :
    payableFor p a es c s = some (hoursWorked es c s) ∧
    reducedFor p a es c s = some 0 ∧
    statusFor p a es c s = some "OK" := by
  have h := resultFor_eq p a es c s hc hs
  rw [allocRow_of_under a c s (hoursWorked es c s) hpos hle] at h
  unfold payableFor reducedFor statusFor
  rw [h]
  exact ⟨rfl, rfl, rfl⟩

/-- Witness for C3 at the exact-equality boundary: POS 10, one staff member
with 10 worked hours and an assignment of only 2, still paid in full. -/
theorem under_or_at_ceiling_pays_as_worked_witness :
    payableFor [("C", 10)] [(("S", "C"), 2)] [⟨"C", "S", some 10, none⟩] "C" "S" =
      some 10 ∧
    reducedFor [("C", 10)] [(("S", "C"), 2)] [⟨"C", "S", some 10, none⟩] "C" "S" =
      some 0 ∧
    statusFor [("C", 10)] [(("S", "C"), 2)] [⟨"C", "S", some 10, none⟩] "C" "S" =
      some "OK" := by
  obtain ⟨h1, h2, h3⟩ := under_or_at_ceiling_pays_as_worked [("C", 10)]
    [(("S", "C"), 2)] [⟨"C", "S", some 10, none⟩] "C" "S"
    (by decide) (by decide) (by decide) (by decide)
  refine ⟨?_, h2, h3⟩
  rw [h1]
  decide

/-- C4: a client whose POS lookup yields the sentinel 0 (absent from the
map or stored as 0) has every staff member paid as worked with status
No POS Set and zero reduction, and contributes exactly one issue line. -/
theorem zero_pos_pays_as_worked_with_issue (p : PosMap) (a : AsgMap) (es : List Entry)
    (c : String) (hc : c ∈ clientsOf es) (h0 : posLookup p c = 0) :
    (∀ s ∈ staffOf es c,
      payableFor p a es c s = some (hoursWorked es c s) ∧
      reducedFor p a es c s = some 0 ∧
      statusFor p a es c s = some "No POS Set") ∧
    ((calculate_payroll_with_assignments p a es).2).count (noPosMsg c) = 1 := by
  constructor
  · intro s hs
    have h := resultFor_eq p a es c s hc hs
    rw [allocRow_of_noPos a c s (totalWorkedClient es c) (hoursWorked es c s) h0] at h
    unfold payableFor reducedFor statusFor
    rw [h]
    exact ⟨rfl, rfl, rfl⟩
  · exact count_noPosMsg_issues p a es c hc h0

/-- Witness for C4: a client absent from the POS map, staff works 10 and is
paid 10 with status No POS Set and one recorded issue. -/
theorem zero_pos_pays_as_worked_with_issue_witness :
    payableFor [] [] [⟨"C2", "S", some 10, none⟩] "C2" "S" = some 10 ∧
    statusFor [] [] [⟨"C2", "S", some 10, none⟩] "C2" "S" = some "No POS Set" ∧
    ((calculate_payroll_with_assignments [] [] [⟨"C2", "S", some 10, none⟩]).2).count
      (noPosMsg "C2") = 1 := by
  obtain ⟨hrows, hcount⟩ := zero_pos_pays_as_worked_with_issue [] []
    [⟨"C2", "S", some 10, none⟩] "C2" (by decide) (by decide)
  obtain ⟨h1, _, h3⟩ := hrows "S" (by decide)
  refine ⟨?_, h3, hcount⟩
  rw [h1]
  decide

/-- C2: in the over-ceiling branch, a staff member whose worked hours
exceed their assignment is capped at the assignment; one within their
assignment is paid as worked with status OK; one without an assignment is
paid round(pos_limit * hours_worked / total_worked, 2) with status
No Assignment - Prorated and a recorded issue. -/
theorem over_ceiling_per_staff_policy (p : PosMap) (a : AsgMap) (es : List Entry)
    (c s : String) (hc : c ∈ clientsOf es) (hs : s ∈ staffOf es c)
    (hpos : posLookup p c ≠ 0) (hover : posLookup p c < totalWorkedClient es c) :
    (∀ asn : ℚ, asgLookup a s c = some asn → asn < hoursWorked es c s →
      payableFor p a es c s = some asn ∧
      reducedFor p a es c s = some (round2 (hoursWorked es c s - asn)) ∧
      statusFor p a es c s = some "Capped at Assignment") ∧
    (∀ asn : ℚ, asgLookup a s c = some asn → hoursWorked es c s ≤ asn →
      payableFor p a es c s = some (hoursWorked es c s) ∧
      statusFor p a es c s = some "OK") ∧
    (asgLookup a s c = none →
      payableFor p a es c s = some (round2 (posLookup p c *
        (hoursWorked es c s / totalWorkedClient es c))) ∧
      reducedFor p a es c s = some (round2 (hoursWorked es c s - round2 (posLookup p c *
        (hoursWorked es c s / totalWorkedClient es c)))) ∧
      statusFor p a es c s = some "No Assignment - Prorated" ∧
      noAsgMsg s c ∈ (calculate_payroll_with_assignments p a es).2) := by
  have h := resultFor_eq p a es c s hc hs
  rw [allocRow_of_over a c s (hoursWorked es c s) hpos hover] at h
  refine ⟨?_, ?_, ?_⟩
  · intro asn hasg hlt
    unfold payableFor reducedFor statusFor
    rw [h]
    unfold overRow
    rw [hasg]
    dsimp only
    rw [if_pos hlt]
    exact ⟨rfl, rfl, rfl⟩
  · intro asn hasg hge
    unfold payableFor statusFor
    rw [h]
    unfold overRow
    rw [hasg]
    dsimp only
    rw [if_neg (not_lt.mpr hge)]
    exact ⟨rfl, rfl⟩
  · intro hasg
    unfold payableFor reducedFor statusFor
    rw [h]
    unfold overRow
    rw [hasg]
    exact ⟨rfl, rfl, rfl, noAsgMsg_mem p a es c s hc hs hpos hover hasg⟩

/-- Witness for C2, the spec scenario: ceiling 40, staff A works 25 with
entitlement 30 (paid 25, OK), staff B works 20 with no assignment (paid
17.78, reduced 2.22, prorated, issue recorded). -/
theorem over_ceiling_per_staff_policy_witness :
    payableFor [("C1", 40)] [(("A", "C1"), 30)]
      [⟨"C1", "A", some 25, none⟩, ⟨"C1", "B", some 20, none⟩] "C1" "A" = some 25 ∧
    statusFor [("C1", 40)] [(("A", "C1"), 30)]
      [⟨"C1", "A", some 25, none⟩, ⟨"C1", "B", some 20, none⟩] "C1" "A" = some "OK" ∧
    payableFor [("C1", 40)] [(("A", "C1"), 30)]
      [⟨"C1", "A", some 25, none⟩, ⟨"C1", "B", some 20, none⟩] "C1" "B" =
        some 17.78 ∧
    reducedFor [("C1", 40)] [(("A", "C1"), 30)]
      [⟨"C1", "A", some 25, none⟩, ⟨"C1", "B", some 20, none⟩] "C1" "B" =
        some 2.22 ∧
    statusFor [("C1", 40)] [(("A", "C1"), 30)]
      [⟨"C1", "A", some 25, none⟩, ⟨"C1", "B", some 20, none⟩] "C1" "B" =
        some "No Assignment - Prorated" := by
  obtain ⟨-, hA, -⟩ := over_ceiling_per_staff_policy [("C1", 40)] [(("A", "C1"), 30)]
    [⟨"C1", "A", some 25, none⟩, ⟨"C1", "B", some 20, none⟩] "C1" "A"
    (by decide) (by decide) (by decide) (by decide)
  obtain ⟨hA1, hA2⟩ := hA 30 (by decide) (by decide)
  obtain ⟨-, -, hB⟩ := over_ceiling_per_staff_policy [("C1", 40)] [(("A", "C1"), 30)]
    [⟨"C1", "A", some 25, none⟩, ⟨"C1", "B", some 20, none⟩] "C1" "B"
    (by decide) (by decide) (by decide) (by decide)
  obtain ⟨hB1, hB2, hB3, -⟩ := hB (by decide)
  refine ⟨?_, hA2, ?_, ?_, hB3⟩
  · rw [hA1]
    decide
  · rw [hB1]
    decide
  · rw [hB2]
    decide

lemma sumDur_cons (e : Entry) (es : List Entry) (c s : String) :
    sumDur (e :: es) c s =
      (if e.client = c ∧ e.staff = s then e.dur.getD 0 else 0) + sumDur es c s := by
  unfold sumDur
  by_cases h : (e.client == c && e.staff == s) = true
  · rw [List.filter_cons_of_pos
      (p := fun e : Entry => e.client == c && e.staff == s) h,
      List.map_cons, List.sum_cons, if_pos]
    rw [Bool.and_eq_true, beq_iff_eq, beq_iff_eq] at h
    exact h
  · rw [List.filter_cons_of_neg
      (p := fun e : Entry => e.client == c && e.staff == s) h, if_neg, zero_add]
    intro hcon
    exact h (by rw [Bool.and_eq_true, beq_iff_eq, beq_iff_eq]; exact hcon)

/-- The invariants of one allocation row, in each of the three branches. -/
lemma allocRow_invariants (a : AsgMap) (c s : String) (pos total hw : ℚ)
    (hposn : 0 ≤ pos) (hhw : 0 ≤ hw) (hk : ∃ k : ℤ, hw = (k : ℚ) / 100)
    (hasg : ∀ v : ℚ, asgLookup a s c = some v → 0 ≤ v) :
    0 ≤ (allocRow a c s pos total hw).payable ∧
    (allocRow a c s pos total hw).payable ≤ hw ∧
    (allocRow a c s pos total hw).reduced =
      round2 (hw - (allocRow a c s pos total hw).payable) ∧
    0 ≤ (allocRow a c s pos total hw).reduced := by
  unfold allocRow
  split_ifs with h0 hle
  · refine ⟨hhw, le_refl hw, ?_, le_refl 0⟩
    show (0 : ℚ) = round2 (hw - hw)
    rw [sub_self, round2_zero]
  · refine ⟨hhw, le_refl hw, ?_, le_refl 0⟩
    show (0 : ℚ) = round2 (hw - hw)
    rw [sub_self, round2_zero]
  · have hover : pos < total := not_le.mp hle
    cases hq : asgLookup a s c with
    | none =>
      unfold overRow
      rw [hq]
      dsimp only
      have hT : 0 < total := lt_of_le_of_lt hposn hover
      have hx0 : 0 ≤ pos * (hw / total) :=
        mul_nonneg hposn (div_nonneg hhw (le_of_lt hT))
      have hple : round2 (pos * (hw / total)) ≤ hw := by
        obtain ⟨k, hke⟩ := hk
        rw [hke]
        apply round2_le_of_le_div_hundred
        rw [← hke]
        have h1 : pos * (hw / total) ≤ total * (hw / total) :=
          mul_le_mul_of_nonneg_right (le_of_lt hover)
            (div_nonneg hhw (le_of_lt hT))
        have h2 : total * (hw / total) = hw := by
          field_simp
        linarith
      exact ⟨round2_nonneg hx0, hple, rfl, round2_nonneg (by linarith)⟩
    | some v =>
      have hv := hasg v hq
      unfold overRow
      rw [hq]
      dsimp only
      split_ifs with hlt
      · exact ⟨hv, le_of_lt hlt, rfl, round2_nonneg (by linarith)⟩
      · refine ⟨hhw, le_refl hw, rfl, ?_⟩
        rw [sub_self]
        exact le_of_eq round2_zero.symm

/-- C5: in every branch each result row satisfies 0 <= payable <= worked
and reduced = round(worked - payable, 2) >= 0, provided the stored POS
values, assigned hours and durations are nonnegative; a pair with zero
grouped hours still gets a row, paid 0. -/
theorem allocation_invariants (p : PosMap) (a : AsgMap) (es : List Entry)
    (hp : ∀ x ∈ p, 0 ≤ x.2) (ha : ∀ x ∈ a, 0 ≤ x.2)
    (hd : ∀ e ∈ es, 0 ≤ e.dur.getD 0) :
    (∀ r ∈ (calculate_payroll_with_assignments p a es).1,
      0 ≤ r.payable ∧ r.payable ≤ r.hoursWorked ∧
      r.reduced = round2 (r.hoursWorked - r.payable) ∧ 0 ≤ r.reduced) ∧
    (∀ c s : String, c ∈ clientsOf es → s ∈ staffOf es c →
      hoursWorked es c s = 0 → payableFor p a es c s = some 0) := by
  constructor
  · intro r hr
    rw [calc_fst] at hr
    obtain ⟨blk, hblk, hrblk⟩ := List.mem_flatten.mp hr
    obtain ⟨c, hcmem, rfl⟩ := List.mem_map.mp hblk
    obtain ⟨s, hsmem, rfl⟩ := List.mem_map.mp hrblk
    have hinv := allocRow_invariants a c s (posLookup p c) (totalWorkedClient es c)
      (hoursWorked es c s) (posLookup_nonneg hp c) (hoursWorked_nonneg hd c s)
      ⟨roundHalfEven (100 * sumDur es c s), rfl⟩
      (fun v hv => asgLookup_nonneg ha hv)
    rw [allocRow_hoursWorked]
    exact hinv
  · intro c s hc hs h0
    have h := resultFor_eq p a es c s hc hs
    unfold payableFor
    rw [h]
    simp only [Option.map_some']
    congr 1
    have hinv := allocRow_invariants a c s (posLookup p c) (totalWorkedClient es c)
      (hoursWorked es c s) (posLookup_nonneg hp c) (hoursWorked_nonneg hd c s)
      ⟨roundHalfEven (100 * sumDur es c s), rfl⟩
      (fun v hv => asgLookup_nonneg ha hv)
    have h2 := hinv.2.1
    exact le_antisymm (le_of_le_of_eq h2 h0) hinv.1

/-- Witness for C5: an over-ceiling client where one staff member has a
zero-hours work record and an assignment; the zero-hours row is paid 0. -/
theorem allocation_invariants_witness :
    payableFor [("C", 5)] [(("S", "C"), 3)]
      [⟨"C", "S", some 0, none⟩, ⟨"C", "T", some 9, none⟩] "C" "S" = some 0 :=
  (allocation_invariants [("C", 5)] [(("S", "C"), 3)]
      [⟨"C", "S", some 0, none⟩, ⟨"C", "T", some 9, none⟩]
      (by decide) (by decide) (by decide)).2 "C" "S"
    (by decide) (by decide) (by decide)

/-- C6: the calculation is a pure function (two runs on the same inputs
coincide, and so do the derived staff summaries), and permuting the raw
EVV rows leaves the result row of every (client, staff) pair, hence its
payable, reduced and status fields, unchanged. -/
theorem payroll_deterministic_and_order_independent (p : PosMap) (a : AsgMap)
    (es es' : List Entry) (hperm : es.Perm es') :
    calculate_payroll_with_assignments p a es =
      calculate_payroll_with_assignments p a es ∧
    staffSummary (calculate_payroll_with_assignments p a es).1 =
      staffSummary (calculate_payroll_with_assignments p a es).1 ∧
    ∀ c s : String, resultFor p a es c s = resultFor p a es' c s :=
  ⟨rfl, rfl, fun c s => resultFor_perm p a hperm c s⟩

/-- Witness for C6: swapping the two EVV rows of the counterexample client
leaves the prorated row of staff B unchanged. -/
theorem payroll_deterministic_and_order_independent_witness :
    resultFor [("C1", 40)] [(("A", "C1"), 30)]
      [⟨"C1", "A", some 25, none⟩, ⟨"C1", "B", some 20, none⟩] "C1" "B" =
    resultFor [("C1", 40)] [(("A", "C1"), 30)]
      [⟨"C1", "B", some 20, none⟩, ⟨"C1", "A", some 25, none⟩] "C1" "B" :=
  (payroll_deterministic_and_order_independent [("C1", 40)] [(("A", "C1"), 30)]
    [⟨"C1", "A", some 25, none⟩, ⟨"C1", "B", some 20, none⟩]
    [⟨"C1", "B", some 20, none⟩, ⟨"C1", "A", some 25, none⟩] (by decide)).2.2 "C1" "B"

/-- C7: grouping is by the exact (client, staff) string pair with at most
one aggregated key per pair; a row with a missing or non-numeric duration
changes no group's hours; the grouped hours are the 2-decimal rounding of
the raw sum; and a raw row contributes its duration exactly when both
strings match exactly. -/
theorem aggregation_grouping_properties (es : List Entry) (c s : String) :
    (pairsOf es).Nodup ∧
    (∀ e : Entry, e.dur = none → hoursWorked (e :: es) c s = hoursWorked es c s) ∧
    hoursWorked es c s = round2 (sumDur es c s) ∧
    (∀ e : Entry, sumDur (e :: es) c s =
      (if e.client = c ∧ e.staff = s then e.dur.getD 0 else 0) + sumDur es c s) := by
  refine ⟨List.nodup_dedup _, ?_, rfl, fun e => sumDur_cons e es c s⟩
  intro e he
  unfold hoursWorked
  congr 1
  rw [sumDur_cons, he]
  by_cases h : e.client = c ∧ e.staff = s
  · rw [if_pos h]
    simp
  · rw [if_neg h, zero_add]

/-- Witness for C7: prepending a row with a missing duration leaves the
grouped hours of its pair unchanged. -/
theorem aggregation_grouping_properties_witness :
    hoursWorked (⟨"C", "S", none, none⟩ :: [⟨"C", "S", some 3, none⟩]) "C" "S" =
      hoursWorked [⟨"C", "S", some 3, none⟩] "C" "S" :=
  (aggregation_grouping_properties [⟨"C", "S", some 3, none⟩] "C" "S").2.1
    ⟨"C", "S", none, none⟩ rfl

/-- C1 (counterexample): in the spec's own mixed scenario (POS 40, staff A
works 25 under an assignment of 30, staff B works 20 with no assignment)
the over-ceiling branch applies, yet the client's total Payable Hours is
25 + 17.78 = 42.78, which exceeds the POS limit of 40: the claimed bound is
false on the code. -/
theorem mixed_entitlement_breaks_ceiling_bound :
    posLookup [("C1", 40)] "C1" ≠ 0 ∧
    posLookup [("C1", 40)] "C1" <
      totalWorkedClient [⟨"C1", "A", some 25, none⟩, ⟨"C1", "B", some 20, none⟩] "C1" ∧
    clientPayableTotal [("C1", 40)] [(("A", "C1"), 30)]
      [⟨"C1", "A", some 25, none⟩, ⟨"C1", "B", some 20, none⟩] "C1" = 42.78 ∧
    ¬(clientPayableTotal [("C1", 40)] [(("A", "C1"), 30)]
        [⟨"C1", "A", some 25, none⟩, ⟨"C1", "B", some 20, none⟩] "C1" ≤
      posLookup [("C1", 40)] "C1") :=
  ⟨by decide, by decide, by decide, by decide⟩

/-- C1 (amended): in the over-ceiling branch, the sum of Payable Hours over
the client's rows WITHOUT an assignment is at most the POS limit plus half
a cent of rounding slack per such row; rows holding an assignment are
capped only by that assignment, so the client total can exceed the limit
(see the counterexample). -/
theorem prorated_rows_sum_le_ceiling (p : PosMap) (a : AsgMap) (es : List Entry)
    (c : String) (hc : c ∈ clientsOf es) (hd : ∀ e ∈ es, 0 ≤ e.dur.getD 0)
    (hpos : 0 < posLookup p c) (hover : posLookup p c < totalWorkedClient es c) :
    (((calculate_payroll_with_assignments p a es).1.filter fun r =>
        r.client == c && r.assigned.isNone).map fun r => r.payable).sum ≤
      posLookup p c +
        (((calculate_payroll_with_assignments p a es).1.filter fun r =>
          r.client == c && r.assigned.isNone).length : ℚ) / 200 := by
  have hT : 0 < totalWorkedClient es c := lt_trans hpos hover
  have hfilter : ((calculate_payroll_with_assignments p a es).1.filter fun r =>
      r.client == c && r.assigned.isNone) =
      ((staffOf es c).filter fun s => (asgLookup a s c).isNone).map fun s =>
        allocRow a c s (posLookup p c) (totalWorkedClient es c) (hoursWorked es c s) := by
    rw [filter_and _ (fun r : AllocationResult => r.client == c)
      (fun r : AllocationResult => r.assigned.isNone),
      calc_filter_client p a es c hc, List.filter_map]
    congr 1
    apply List.filter_congr
    intro s _
    simp only [Function.comp]
    rw [allocRow_of_over a c s (hoursWorked es c s) (ne_of_gt hpos) hover,
      overRow_assigned]
  rw [hfilter, List.map_map, List.length_map]
  have hmc : (((staffOf es c).filter fun s => (asgLookup a s c).isNone).map
      (AllocationResult.payable ∘ fun s =>
        allocRow a c s (posLookup p c) (totalWorkedClient es c) (hoursWorked es c s))) =
      ((staffOf es c).filter fun s => (asgLookup a s c).isNone).map fun s =>
        round2 (posLookup p c * (hoursWorked es c s / totalWorkedClient es c)) := by
    apply List.map_congr_left
    intro s hsU
    obtain ⟨_, hnone⟩ := List.mem_filter.mp hsU
    simp only [Function.comp]
    rw [allocRow_of_over a c s (hoursWorked es c s) (ne_of_gt hpos) hover,
      overRow_payable_none _ _ _ (Option.isNone_iff_eq_none.mp hnone)]
  rw [hmc]
  have hstep1 : (((staffOf es c).filter fun s => (asgLookup a s c).isNone).map fun s =>
      round2 (posLookup p c * (hoursWorked es c s / totalWorkedClient es c))).sum ≤
      (((staffOf es c).filter fun s => (asgLookup a s c).isNone).map fun s =>
        posLookup p c * (hoursWorked es c s / totalWorkedClient es c) + 1/200).sum :=
    List.sum_le_sum fun s _ => round2_le _
  have hstep2 : (((staffOf es c).filter fun s => (asgLookup a s c).isNone).map fun s =>
      posLookup p c * (hoursWorked es c s / totalWorkedClient es c) + 1/200).sum =
      (posLookup p c / totalWorkedClient es c) *
        (((staffOf es c).filter fun s => (asgLookup a s c).isNone).map fun s =>
          hoursWorked es c s).sum +
      (((staffOf es c).filter fun s => (asgLookup a s c).isNone).length : ℚ) *
        (1/200) := by
    rw [sum_map_add_const]
    congr 1
    rw [← List.sum_map_mul_left]
    exact congrArg List.sum (List.map_congr_left fun s _ => by ring)
  have hUsum : (((staffOf es c).filter fun s => (asgLookup a s c).isNone).map fun s =>
      hoursWorked es c s).sum ≤ totalWorkedClient es c :=
    sum_map_filter_le (staffOf es c) _ _ fun s _ => hoursWorked_nonneg hd c s
  have hscale : (posLookup p c / totalWorkedClient es c) *
      (((staffOf es c).filter fun s => (asgLookup a s c).isNone).map fun s =>
        hoursWorked es c s).sum ≤ posLookup p c := by
    have h1 : (posLookup p c / totalWorkedClient es c) *
        (((staffOf es c).filter fun s => (asgLookup a s c).isNone).map fun s =>
          hoursWorked es c s).sum ≤
        (posLookup p c / totalWorkedClient es c) * totalWorkedClient es c :=
      mul_le_mul_of_nonneg_left hUsum (div_nonneg (le_of_lt hpos) (le_of_lt hT))
    rwa [div_mul_cancel₀ _ (ne_of_gt hT)] at h1
  calc (((staffOf es c).filter fun s => (asgLookup a s c).isNone).map fun s =>
      round2 (posLookup p c * (hoursWorked es c s / totalWorkedClient es c))).sum
      ≤ _ := hstep1
    _ = _ := hstep2
    _ ≤ posLookup p c +
        (((staffOf es c).filter fun s => (asgLookup a s c).isNone).length : ℚ) *
          (1/200) := by linarith
    _ = posLookup p c +
        (((staffOf es c).filter fun s => (asgLookup a s c).isNone).length : ℚ) / 200 := by
        ring

/-- Witness for the amended C1 at the counterexample input: the single
unentitled row pays 17.78, at most 40 + 0.005. -/
theorem prorated_rows_sum_le_ceiling_witness :
    (((calculate_payroll_with_assignments [("C1", 40)] [(("A", "C1"), 30)]
        [⟨"C1", "A", some 25, none⟩, ⟨"C1", "B", some 20, none⟩]).1.filter fun r =>
      r.client == "C1" && r.assigned.isNone).map fun r => r.payable).sum ≤
      posLookup [("C1", 40)] "C1" +
        (((calculate_payroll_with_assignments [("C1", 40)] [(("A", "C1"), 30)]
            [⟨"C1", "A", some 25, none⟩, ⟨"C1", "B", some 20, none⟩]).1.filter fun r =>
          r.client == "C1" && r.assigned.isNone).length : ℚ) / 200 :=
  prorated_rows_sum_le_ceiling [("C1", 40)] [(("A", "C1"), 30)]
    [⟨"C1", "A", some 25, none⟩, ⟨"C1", "B", some 20, none⟩] "C1"
    (by decide) (by decide) (by decide) (by decide)

/-- C8: combining the weekly staff summaries is the identity when exactly
one week is present (and empty when neither is), and with both weeks it is
the outer join on Staff Name with zero-fill for the missing week followed
by field-wise sums rounded to 2 decimals. -/
theorem combine_summaries_identity_and_outer_join :
    (∀ A : List StaffSummaryRow, combineSummaries (some A) none = A) ∧
    (∀ B : List StaffSummaryRow, combineSummaries none (some B) = B) ∧
    combineSummaries none none = [] ∧
    (∀ (w1 w2 : List StaffSummaryRow) (s : String),
      slookup (combineSummaries (some w1) (some w2)) s =
        match slookup w1 s, slookup w2 s with
        | some r1, some r2 =>
            some ⟨s, round2 (r1.worked + r2.worked), round2 (r1.payable + r2.payable),
              round2 (r1.reduced + r2.reduced)⟩
        | some r1, none =>
            some ⟨s, round2 (r1.worked + 0), round2 (r1.payable + 0),
              round2 (r1.reduced + 0)⟩
        | none, some r2 =>
            some ⟨s, round2 (0 + r2.worked), round2 (0 + r2.payable),
              round2 (0 + r2.reduced)⟩
        | none, none => none) :=
  ⟨fun _ => rfl, fun _ => rfl, rfl, fun w1 w2 s => slookup_combineBoth w1 w2 s⟩

/-- C9: under the precondition that stored POS values are nonnegative, the
over-ceiling branch forces a strictly positive total, so the proration
divisor is never zero; and without that precondition a stored POS of -5
with a zero-hours record reaches the prorating branch with divisor 0. -/
theorem proration_divisor_positive (p : PosMap) (es : List Entry) (c : String)
    (hp : ∀ x ∈ p, 0 ≤ x.2) (hpos : posLookup p c ≠ 0)
    (hover : posLookup p c < totalWorkedClient es c) :
    0 < totalWorkedClient es c ∧
    (posLookup [("C", -5)] "C" ≠ 0 ∧
     posLookup [("C", -5)] "C" < totalWorkedClient [⟨"C", "S", some 0, none⟩] "C" ∧
     totalWorkedClient [⟨"C", "S", some 0, none⟩] "C" = 0 ∧
     asgLookup [] "S" "C" = none ∧
     statusFor [("C", -5)] [] [⟨"C", "S", some 0, none⟩] "C" "S" =
       some "No Assignment - Prorated") := by
  constructor
  · have h0 : 0 ≤ posLookup p c := posLookup_nonneg hp c
    exact lt_trans (lt_of_le_of_ne h0 (Ne.symm hpos)) hover
  · exact ⟨by decide, by decide, by decide, by decide, by decide⟩

/-- Witness for C9: a nonnegative POS map in the over-ceiling branch has a
positive total for the divisor. -/
theorem proration_divisor_positive_witness :
    0 < totalWorkedClient [⟨"C", "S", some 9, none⟩] "C" :=
  (proration_divisor_positive [("C", 5)] [⟨"C", "S", some 9, none⟩] "C"
    (by decide) (by decide) (by decide)).1

/-- C10: the lookup maps exclude inactive entities (an inactive client is
missing from the POS map so its lookup is the sentinel 0; an assignment
whose staff or client is inactive is missing from the assignment map), and
consequently an inactive client is allocated exactly like one with no POS
set, and a pair whose assignment involves an inactive entity is prorated in
the over-ceiling branch exactly like a missing assignment. -/
theorem inactive_entities_excluded (db : DB)
    (hcn : (db.clients.map fun c => c.name).Nodup)
    (hsn : (db.staff.map fun s => s.name).Nodup) :
    (∀ cl ∈ db.clients, cl.isActive ≠ 1 →
      posLookup (get_client_pos_map db) cl.name = 0) ∧
    (∀ st ∈ db.staff, ∀ cname : String, st.isActive ≠ 1 →
      asgLookup (get_assignment_map db) st.name cname = none) ∧
    (∀ cl ∈ db.clients, ∀ sname : String, cl.isActive ≠ 1 →
      asgLookup (get_assignment_map db) sname cl.name = none) ∧
    (∀ cl ∈ db.clients, cl.isActive ≠ 1 →
      ∀ (a : AsgMap) (es : List Entry) (s : String),
      cl.name ∈ clientsOf es → s ∈ staffOf es cl.name →
      payableFor (get_client_pos_map db) a es cl.name s =
        some (hoursWorked es cl.name s) ∧
      statusFor (get_client_pos_map db) a es cl.name s = some "No POS Set") ∧
    (∀ st ∈ db.staff, ∀ cl ∈ db.clients, st.isActive ≠ 1 ∨ cl.isActive ≠ 1 →
      ∀ (p : PosMap) (es : List Entry),
      cl.name ∈ clientsOf es → st.name ∈ staffOf es cl.name →
      posLookup p cl.name ≠ 0 →
      posLookup p cl.name < totalWorkedClient es cl.name →
      statusFor p (get_assignment_map db) es cl.name st.name =
        some "No Assignment - Prorated") := by
  refine ⟨fun cl hcl hact => posLookup_inactive db hcn hcl hact,
    fun st hst cname hact => asgLookup_inactive_staff db hsn hst hact cname,
    fun cl hcl sname hact => asgLookup_inactive_client db hcn hcl hact sname,
    ?_, ?_⟩
  · intro cl hcl hact a es s hc hs
    have h0 := posLookup_inactive db hcn hcl hact
    have h := resultFor_eq (get_client_pos_map db) a es cl.name s hc hs
    rw [allocRow_of_noPos a cl.name s (totalWorkedClient es cl.name)
      (hoursWorked es cl.name s) h0] at h
    unfold payableFor statusFor
    rw [h]
    exact ⟨rfl, rfl⟩
  · intro st hst cl hcl hinact p es hc hs hpos hover
    have hnone : asgLookup (get_assignment_map db) st.name cl.name = none := by
      rcases hinact with h | h
      · exact asgLookup_inactive_staff db hsn hst h cl.name
      · exact asgLookup_inactive_client db hcn hcl h st.name
    have h := resultFor_eq p (get_assignment_map db) es cl.name st.name hc hs
    rw [allocRow_of_over (get_assignment_map db) cl.name st.name
      (hoursWorked es cl.name st.name) hpos hover] at h
    unfold statusFor
    rw [h]
    unfold overRow
    rw [hnone]
    rfl

/-- Witness for C10: a database whose only staff member and only client are
both inactive: the client's POS lookup is 0, the assignment between them is
invisible, and the client is allocated as No POS Set. -/
theorem inactive_entities_excluded_witness :
    posLookup (get_client_pos_map ⟨[⟨1, "S", 0⟩], [⟨1, "C", 40, 0⟩], [⟨1, 1, 10⟩]⟩)
      "C" = 0 ∧
    asgLookup (get_assignment_map ⟨[⟨1, "S", 0⟩], [⟨1, "C", 40, 0⟩], [⟨1, 1, 10⟩]⟩)
      "S" "C" = none ∧
    statusFor (get_client_pos_map ⟨[⟨1, "S", 0⟩], [⟨1, "C", 40, 0⟩], [⟨1, 1, 10⟩]⟩)
      [] [⟨"C", "S", some 10, none⟩] "C" "S" = some "No POS Set" := by
  refine ⟨?_, ?_, ?_⟩
  · exact (inactive_entities_excluded ⟨[⟨1, "S", 0⟩], [⟨1, "C", 40, 0⟩], [⟨1, 1, 10⟩]⟩
      (by decide) (by decide)).1 ⟨1, "C", 40, 0⟩ (by decide) (by decide)
  · exact (inactive_entities_excluded ⟨[⟨1, "S", 0⟩], [⟨1, "C", 40, 0⟩], [⟨1, 1, 10⟩]⟩
      (by decide) (by decide)).2.1 ⟨1, "S", 0⟩ (by decide) "C" (by decide)
  · exact ((inactive_entities_excluded ⟨[⟨1, "S", 0⟩], [⟨1, "C", 40, 0⟩], [⟨1, 1, 10⟩]⟩
      (by decide) (by decide)).2.2.2.1 ⟨1, "C", 40, 0⟩ (by decide) (by decide)
      [] [⟨"C", "S", some 10, none⟩] "S" (by decide) (by decide)).2

end Payroll
